import Mathlib

/-!
Verification development for `gdutils.dataqa` (module `dataqa.py`).

The module is embedded shallowly:

* A pandas/geopandas table is a `Table`: an association list from column
  name to the ordered list of that column's (numeric) cell values, plus an
  ordered list of row keys (the index).  Cell values are modelled as `Int`
  (the spec's comparison/summation claims are about numeric columns); row
  keys are modelled as `String` (Python row labels are arbitrary hashable
  values which the code only indexes with and interpolates into strings,
  so string keys make `"{row} [vs] {row}"` formatting the identity).
* Python `dict` results are insertion-ordered association lists
  (`PyDict`); assignment to an existing key overwrites the value in place
  and keeps the key's original position, exactly as CPython does.
* Raised exceptions become `Except QAError`: `KeyError` / `IndexError`
  (both `LookupError`s), `TypeError`, and `ValueError` (the
  InvalidArgument-kind error raised by the alignment guard).
* The `float` threshold of the geometry checks is modelled as `ℚ`.
-/

namespace Dataqa

/-- Error kinds raised by `dataqa.py`: `KeyError` and `IndexError` are the
LookupError kinds, `ValueError` is the InvalidArgument kind raised by the
`__can_compare` guards, `TypeError` is what Python raises when `None` is
subscripted or measured with `len`. -/
inductive QAError where
  | keyError
  | indexError
  | typeError
  | valueError
  deriving DecidableEq

/-- A pandas/geopandas table: ordered association list from column name to
the column's cell values, together with the ordered row index. -/
structure Table where
  cols : List (String × List Int)
  index : List String
  deriving DecidableEq

/-- The list of column names of a table, in order (`table.columns`). -/
def Table.columnNames (t : Table) : List String :=
  t.cols.map Prod.fst

/-- `table.at[row, col]` of pandas: look the column up by name, the row up
by its label in the index (first occurrence), and return the cell; a
missing column or row label raises a `KeyError`. -/
def Table.cell (t : Table) (row col : String) : Except QAError Int :=
  match List.lookup col t.cols with
  | none => Except.error QAError.keyError
  | some vals =>
    match t.index.findIdx? (fun r => r == row) with
    | none => Except.error QAError.keyError
    | some i =>
      match vals.get? i with
      | none => Except.error QAError.keyError
      | some v => Except.ok v

/-- The cell value when the lookup succeeds, defaulting to `0`; used only
to state theorems about inputs whose lookups are assumed to succeed. -/
def cellD (t : Table) (row col : String) : Int :=
  match t.cell row col with
  | Except.ok v => v
  | Except.error _ => 0

/-- Boolean success test for a cell lookup. -/
def cellOk (t : Table) (row col : String) : Bool :=
  match t.cell row col with
  | Except.ok _ => true
  | Except.error _ => false

/-- A Python collection argument that is either a `set` or a `list`
(the two container kinds `__can_compare` distinguishes).  A `set` literal
holds its distinct elements, so its `len` is the deduplicated length. -/
inductive PyColl (α : Type) where
  | pset : List α → PyColl α
  | plist : List α → PyColl α

/-- Python `len` of a collection (a set counts distinct elements). -/
def PyColl.len [DecidableEq α] : PyColl α → Nat
  | .pset xs => xs.dedup.length
  | .plist xs => xs.length

/-- `isinstance(xs, type(ys))` restricted to the set/list kinds:
true exactly when both collections are the same concrete kind. -/
def PyColl.sameKind : PyColl α → PyColl α → Bool
  | .pset _, .pset _ => true
  | .plist _, .plist _ => true
  | _, _ => false

/-- `dataqa.__can_compare`: true iff both arguments are non-`None`, of the
same concrete container kind, non-empty and of equal length.  (The
source's `not isinstance(xs, Hashable)` conjunct is identically true on
sets and lists, the kinds modelled here, since neither is hashable.) -/
def can_compare [DecidableEq α] : Option (PyColl α) → Option (PyColl α) → Bool
  | some xs, some ys => xs.sameKind ys && decide (0 < xs.len) && (xs.len == ys.len)
  | _, _ => false

/-- `dataqa.compare_column_names`: the pair of
`set(standards) ∩ set(table.columns)` and `set(table.columns)` minus that
intersection. -/
def compare_column_names (table : Table) (standards : List String) :
    Finset String × Finset String :=
  let intersection := standards.toFinset ∩ table.columnNames.toFinset
  let difference := table.columnNames.toFinset \ intersection
  (intersection, difference)

/-- `dataqa.sum_column_values`: for each requested column in order, the
pair of its name and the sum of its values; a missing column raises
`KeyError` (the comprehension aborts at the first missing name, producing
no partial result). -/
def sum_column_values (t : Table) : List String → Except QAError (List (String × Int))
  | [] => Except.ok []
  | c :: cs =>
    match List.lookup c t.cols with
    | none => Except.error QAError.keyError
    | some vals =>
      match sum_column_values t cs with
      | Except.error e => Except.error e
      | Except.ok rest => Except.ok ((c, vals.sum) :: rest)

/-- The sum of a column's values (default `0` when the column is absent);
used to state theorems whose hypotheses assume the column exists. -/
def colSum (t : Table) (c : String) : Int :=
  ((List.lookup c t.cols).getD []).sum

/-- Result type of `compare_column_values`: a Python dict from the
column-pair label to the list of (row-pair label, difference) pairs. -/
abbrev PyDict := List (String × List (String × Int))

/-- Assignment `d[k] = v` on a Python dict: if the key is present its
value is replaced in place (the key keeps its original position),
otherwise the pair is appended at the end — CPython's insertion-order
semantics.  A dict holds each key at most once, so replacing the first
occurrence is the same as replacing the occurrence. -/
def dictInsert : List (String × α) → String → α → List (String × α)
  | [], k, v => [(k, v)]
  | p :: rest, k, v =>
    if p.1 == k then (k, v) :: rest else p :: dictInsert rest k v

/-- The inner list comprehension of `compare_column_values` for one column
pair: walking the two row-key lists in step, label each pair
`"{r1} [vs] {r2}"` and subtract the two cells.  Row keys and cells are
evaluated left to right exactly as Python does, the first failure
aborting the whole comprehension; running out of `rows2` early is the
`IndexError` of `rows2[j]`. -/
def rowDiffs (t1 t2 : Table) (c1i c2i : String) :
    List String → List String → Except QAError (List (String × Int))
  | [], _ => Except.ok []
  | _ :: _, [] => Except.error QAError.indexError
  | r1j :: r1rest, r2j :: r2rest =>
    match t1.cell r1j c1i with
    | Except.error e => Except.error e
    | Except.ok v1 =>
      match t2.cell r2j c2i with
      | Except.error e => Except.error e
      | Except.ok v2 =>
        match rowDiffs t1 t2 c1i c2i r1rest r2rest with
        | Except.error e => Except.error e
        | Except.ok rest =>
          Except.ok ((r1j ++ " [vs] " ++ r2j, v1 - v2) :: rest)

/-- Pure form of `rowDiffs` under the assumption that every cell lookup
succeeds (absent cells default to `0`); used to state expected results. -/
def rowDiffsD (t1 t2 : Table) (c1i c2i : String) :
    List String → List String → List (String × Int)
  | [], _ => []
  | _ :: _, [] => []
  | r1j :: r1rest, r2j :: r2rest =>
    (r1j ++ " [vs] " ++ r2j, cellD t1 r1j c1i - cellD t2 r2j c2i) ::
      rowDiffsD t1 t2 c1i c2i r1rest r2rest

/-- The `for i in range(0, len(columns1))` loop of `compare_column_values`,
threading the result dict.  For each positional column pair the
comprehension is evaluated first and its value assigned under the label
`"{c1} [vs] {c2}"`.  When `rows1` is `None`, `range(len(rows1))` raises
`TypeError` as soon as the first loop body runs; when only `rows2` is
`None`, `rows2[j]` raises `TypeError` at the first row position, so an
empty `rows1` yields an empty comprehension instead of an error.  Running
out of `columns2` early is the `IndexError` of `columns2[i]`.  (The
error arms other than the `rows` ones are unreachable through
`compare_column_values`, whose guard has already aligned the columns.) -/
def ccv_cols (t1 t2 : Table) (r1o r2o : Option (List String)) :
    List String → List String → PyDict → Except QAError PyDict
  | [], _, acc => Except.ok acc
  | _ :: _, [], _ => Except.error QAError.indexError
  | c1i :: c1rest, c2i :: c2rest, acc =>
    match r1o with
    | none => Except.error QAError.typeError
    | some r1 =>
      match
        (match r2o with
         | none =>
           if r1.isEmpty then Except.ok [] else Except.error QAError.typeError
         | some r2 => rowDiffs t1 t2 c1i c2i r1 r2) with
      | Except.error e => Except.error e
      | Except.ok diff =>
        ccv_cols t1 t2 r1o r2o c1rest c2rest
          (dictInsert acc (c1i ++ " [vs] " ++ c2i) diff)

/-- `dataqa.compare_column_values`: guard the columns with
`__can_compare` (raising `ValueError` otherwise); with both row lists
omitted, recurse with each table's full index; with both supplied, guard
them the same way; otherwise (exactly one supplied) fall through to the
loop, which is where Python's `else` branch lands. -/
def compare_column_values (t1 t2 : Table) (c1 c2 : List String)
    (rows1 rows2 : Option (List String)) : Except QAError PyDict :=
  if can_compare (some (PyColl.plist c1)) (some (PyColl.plist c2)) = false then
    Except.error QAError.valueError
  else
    match rows1, rows2 with
    | none, none =>
      if can_compare (some (PyColl.plist t1.index))
          (some (PyColl.plist t2.index)) = false then
        Except.error QAError.valueError
      else
        ccv_cols t1 t2 (some t1.index) (some t2.index) c1 c2 []
    | some r1, some r2 =>
      if can_compare (some (PyColl.plist r1))
          (some (PyColl.plist r2)) = false then
        Except.error QAError.valueError
      else
        ccv_cols t1 t2 (some r1) (some r2) c1 c2 []
    | r1o, r2o => ccv_cols t1 t2 r1o r2o c1 c2 []

/-- `dataqa.compare_column_sums`: guard the columns with `__can_compare`,
sum each side with `sum_column_values`, and zip the two sum lists
positionally into `("{n1} [vs] {n2}", s1 - s2)` pairs (Python's binary
`map` over two lists truncates to the shorter, as `zipWith` does). -/
def compare_column_sums (t1 t2 : Table) (c1 c2 : List String) :
    Except QAError (List (String × Int)) :=
  if can_compare (some (PyColl.plist c1)) (some (PyColl.plist c2)) = false then
    Except.error QAError.valueError
  else
    match sum_column_values t1 c1 with
    | Except.error e => Except.error e
    | Except.ok sums1 =>
      match sum_column_values t2 c2 with
      | Except.error e => Except.error e
      | Except.ok sums2 =>
        Except.ok (List.zipWith
          (fun tup1 tup2 => (tup1.1 ++ " [vs] " ++ tup2.1, tup1.2 - tup2.2))
          sums1 sums2)

/-- A geometry cell: missing (`None`), an empty shape, or a point.
`null` is what `.isna()` flags; `gempty` is what `.is_empty` flags —
distinct predicates, as in geopandas. -/
inductive Geom where
  | null
  | gempty
  | point : Int → Int → Geom
  deriving DecidableEq

/-- `.isna()` of a geometry cell. -/
def Geom.isna : Geom → Bool
  | .null => true
  | _ => false

/-- `.is_empty` of a geometry cell. -/
def Geom.isEmptyGeom : Geom → Bool
  | .gempty => true
  | _ => false

/-- A GeoDataFrame that has its `geometry` column: the ordered list of
geometry cells (one per row). -/
structure GeoTable where
  geometry : List Geom
  deriving DecidableEq

/-- `dataqa.has_missing_geometries`: true iff the number of `True`s in
`list(gdf['geometry'].isna())` exceeds `len(gdf['geometry']) * threshold`
(the `float` threshold is modelled as a rational). -/
def has_missing_geometries (gdf : GeoTable) (threshold : ℚ) : Bool :=
  decide ((((gdf.geometry.map Geom.isna).count true : Nat) : ℚ) >
    (gdf.geometry.length : ℚ) * threshold)

/-- `dataqa.has_empty_geometries`: true iff the number of `True`s in
`list(gdf['geometry'].is_empty)` exceeds `len(gdf['geometry']) * threshold`. -/
def has_empty_geometries (gdf : GeoTable) (threshold : ℚ) : Bool :=
  decide ((((gdf.geometry.map Geom.isEmptyGeom).count true : Nat) : ℚ) >
    (gdf.geometry.length : ℚ) * threshold)

/-- The dict produced by assigning a list of (key, value) pairs in order
into an accumulator dict: the trace of the assignment loop of
`compare_column_values`. -/
def dictOfPairs (acc : List (String × α)) : List (String × α) → List (String × α)
  | [] => acc
  | p :: rest => dictOfPairs (dictInsert acc p.1 p.2) rest

/-- The (label, expected difference list) pair sequence of
`compare_column_values` in input order, assuming all cells resolve. -/
def ccvPairs (t1 t2 : Table) (r1 r2 : List String) (c1 c2 : List String) : PyDict :=
  List.zipWith (fun a b => (a ++ " [vs] " ++ b, rowDiffsD t1 t2 a b r1 r2)) c1 c2

/-- The composite label of the positional column pair at index `i`. -/
def pairLabel (c1 c2 : List String) (i : Nat) : String :=
  c1.getD i "" ++ " [vs] " ++ c2.getD i ""

/-- The first concrete table of the spec's scenario: columns
`[COL1, COL2, COL3]`, rows `[0, 1]`, row values `[[1,2,3],[4,5,6]]`. -/
def tableOne : Table :=
  { cols := [("COL1", [1, 4]), ("COL2", [2, 5]), ("COL3", [3, 6])]
    index := ["0", "1"] }

/-- The second concrete table of the spec's scenario: columns
`[col1, col2]`, rows `[0, 1]`, row values `[[1,4],[2,5]]`. -/
def tableTwo : Table :=
  { cols := [("col1", [1, 2]), ("col2", [4, 5])]
    index := ["0", "1"] }

/-- A table whose column names make two distinct column pairs collide on
one composite label: `"a [vs] b" [vs] "c"` and `"a" [vs] "b [vs] c"` both
label as `"a [vs] b [vs] c"`. -/
def tableCollideOne : Table :=
  { cols := [("a [vs] b", [10]), ("a", [20])]
    index := ["0"] }

/-- The partner table of `tableCollideOne` for the label collision. -/
def tableCollideTwo : Table :=
  { cols := [("c", [1]), ("b [vs] c", [2])]
    index := ["0"] }

theorem lookup_cons_ne (p : String × α) (es : List (String × α)) (k : String)
    (h : k ≠ p.1) : List.lookup k (p :: es) = List.lookup k es := by
  obtain ⟨a, b⟩ := p
  have hne : (k == a) = false := beq_eq_false_iff_ne.mpr h
  simp [List.lookup_cons, hne]

theorem lookup_dictInsert_self (d : List (String × α)) (k : String) (v : α) :
    List.lookup k (dictInsert d k v) = some v := by
  induction d with
  | nil => simp [dictInsert]
  | cons p rest ih =>
    by_cases hk : p.1 = k
    · have : (p.1 == k) = true := beq_iff_eq.mpr hk
      simp [dictInsert, this]
    · have hne : (p.1 == k) = false := beq_eq_false_iff_ne.mpr hk
      rw [dictInsert, hne]
      simp only [Bool.false_eq_true, if_false]
      rw [lookup_cons_ne _ _ _ (fun he => hk he.symm)]
      exact ih

theorem lookup_dictInsert_ne (d : List (String × α)) (k : String) (v : α)
    (k2 : String) (h : k2 ≠ k) :
    List.lookup k2 (dictInsert d k v) = List.lookup k2 d := by
  induction d with
  | nil =>
    show List.lookup k2 [(k, v)] = List.lookup k2 []
    rw [lookup_cons_ne (k, v) [] k2 h]
  | cons p rest ih =>
    by_cases hk : p.1 = k
    · have hbeq : (p.1 == k) = true := beq_iff_eq.mpr hk
      rw [dictInsert, hbeq]
      simp only [if_true]
      rw [lookup_cons_ne (k, v) rest k2 h, lookup_cons_ne p rest k2 (hk ▸ h)]
    · have hne : (p.1 == k) = false := beq_eq_false_iff_ne.mpr hk
      rw [dictInsert, hne]
      simp only [Bool.false_eq_true, if_false]
      by_cases he : k2 = p.1
      · subst he
        obtain ⟨a, b⟩ := p
        simp [List.lookup_cons]
      · rw [lookup_cons_ne _ _ _ he, lookup_cons_ne _ _ _ he]
        exact ih

theorem lookup_some_mem_fst (d : List (String × α)) (k : String) (v : α)
    (h : List.lookup k d = some v) : k ∈ d.map Prod.fst := by
  induction d with
  | nil => simp at h
  | cons p rest ih =>
    by_cases he : k = p.1
    · simp [he]
    · rw [lookup_cons_ne _ _ _ he] at h
      simp [ih h]

theorem mem_fst_dictInsert (d : List (String × α)) (k : String) (v : α) (a : String) :
    a ∈ (dictInsert d k v).map Prod.fst ↔ a ∈ d.map Prod.fst ∨ a = k := by
  induction d with
  | nil => simp [dictInsert]
  | cons p rest ih =>
    by_cases hk : p.1 = k
    · have hbeq : (p.1 == k) = true := beq_iff_eq.mpr hk
      rw [dictInsert, hbeq]
      simp only [if_true, List.map_cons, List.mem_cons]
      constructor
      · rintro (rfl | hm)
        · exact Or.inr rfl
        · exact Or.inl (Or.inr hm)
      · rintro ((rfl | hm) | rfl)
        · exact Or.inl hk
        · exact Or.inr hm
        · exact Or.inl rfl
    · have hne : (p.1 == k) = false := beq_eq_false_iff_ne.mpr hk
      rw [dictInsert, hne]
      simp only [Bool.false_eq_true, if_false, List.map_cons, List.mem_cons, ih]
      tauto

theorem nodup_fst_dictInsert (d : List (String × α)) (k : String) (v : α)
    (h : (d.map Prod.fst).Nodup) : ((dictInsert d k v).map Prod.fst).Nodup := by
  induction d with
  | nil => simp [dictInsert]
  | cons p rest ih =>
    simp only [List.map_cons, List.nodup_cons] at h
    by_cases hk : p.1 = k
    · have hbeq : (p.1 == k) = true := beq_iff_eq.mpr hk
      rw [dictInsert, hbeq]
      simp only [if_true, List.map_cons, List.nodup_cons]
      exact ⟨hk ▸ h.1, h.2⟩
    · have hne : (p.1 == k) = false := beq_eq_false_iff_ne.mpr hk
      rw [dictInsert, hne]
      simp only [Bool.false_eq_true, if_false, List.map_cons, List.nodup_cons]
      refine ⟨?_, ih h.2⟩
      rw [mem_fst_dictInsert]
      rintro (hm | rfl)
      · exact h.1 hm
      · exact hk rfl

theorem lookup_dictOfPairs_of_notmem (pairs : List (String × α)) (L : String)
    (h : L ∉ pairs.map Prod.fst) :
    ∀ acc, List.lookup L (dictOfPairs acc pairs) = List.lookup L acc := by
  induction pairs with
  | nil => intro acc; rfl
  | cons p rest ih =>
    intro acc
    simp only [List.map_cons, List.mem_cons, not_or] at h
    simp only [dictOfPairs]
    rw [ih h.2, lookup_dictInsert_ne _ _ _ _ h.1]

theorem lookup_dictOfPairs_last (pairs : List (String × α)) (k : Nat) (L : String) (v : α)
    (hget : pairs.get? k = some (L, v))
    (hafter : ∀ m p, k < m → pairs.get? m = some p → p.1 ≠ L) :
    ∀ acc, List.lookup L (dictOfPairs acc pairs) = some v := by
  induction pairs generalizing k with
  | nil => simp at hget
  | cons p rest ih =>
    intro acc
    match k with
    | 0 =>
      simp only [List.get?] at hget
      cases hget
      have hrest : L ∉ rest.map Prod.fst := by
        intro hmem
        rcases List.mem_map.mp hmem with ⟨q, hq, hfst⟩
        rcases List.mem_iff_get?.mp hq with ⟨m, hm⟩
        exact hafter (m + 1) q (Nat.succ_pos m) hm hfst
      simp only [dictOfPairs]
      rw [lookup_dictOfPairs_of_notmem _ _ hrest, lookup_dictInsert_self]
    | k' + 1 =>
      simp only [List.get?] at hget
      simp only [dictOfPairs]
      exact ih k' hget
        (fun m q hlt hq => hafter (m + 1) q (Nat.succ_lt_succ hlt) hq) _

theorem lookup_dictOfPairs_of_const (pairs : List (String × α)) (L : String) (v : α)
    (hmem : L ∈ pairs.map Prod.fst)
    (hconst : ∀ p ∈ pairs, p.1 = L → p.2 = v) :
    ∀ acc, List.lookup L (dictOfPairs acc pairs) = some v := by
  induction pairs with
  | nil => simp at hmem
  | cons p rest ih =>
    intro acc
    by_cases hrest : L ∈ rest.map Prod.fst
    · simp only [dictOfPairs]
      exact ih hrest (fun q hq => hconst q (List.mem_cons_of_mem _ hq)) _
    · have hp : p.1 = L := by
        rcases List.mem_map.mp hmem with ⟨q, hq, hfst⟩
        rcases List.mem_cons.mp hq with hq | hq
        · rw [hq] at hfst; exact hfst
        · exact absurd (List.mem_map.mpr ⟨q, hq, hfst⟩) hrest
      have hv : p.2 = v := hconst p (List.mem_cons_self _ _) hp
      simp only [dictOfPairs]
      rw [lookup_dictOfPairs_of_notmem _ _ hrest, hp, hv, lookup_dictInsert_self]

theorem nodup_fst_dictOfPairs (pairs : List (String × α)) :
    ∀ acc, (acc.map Prod.fst).Nodup → ((dictOfPairs acc pairs).map Prod.fst).Nodup := by
  induction pairs with
  | nil => intro acc h; exact h
  | cons p rest ih =>
    intro acc h
    exact ih _ (nodup_fst_dictInsert _ _ _ h)

theorem can_compare_plist [DecidableEq α] (xs ys : List α) :
    can_compare (some (PyColl.plist xs)) (some (PyColl.plist ys)) =
      (decide (0 < xs.length) && xs.length == ys.length) := by
  simp [can_compare, PyColl.sameKind, PyColl.len]

theorem cellOk_iff (t : Table) (r c : String) :
    cellOk t r c = true ↔ t.cell r c = Except.ok (cellD t r c) := by
  unfold cellOk cellD
  cases t.cell r c <;> simp

theorem get?_eq_some_getD {σ : Type} {l : List σ} {i : Nat} (hi : i < l.length) (d : σ) :
    l.get? i = some (l.getD i d) := by
  rw [List.getD_eq_getD_get?]
  cases hc : l.get? i with
  | none =>
    rw [List.get?_eq_none] at hc
    omega
  | some a => rfl

theorem rowDiffs_ok (t1 t2 : Table) (c1i c2i : String) :
    ∀ r1 r2 : List String, r1.length = r2.length →
    (∀ r ∈ r1, cellOk t1 r c1i = true) →
    (∀ r ∈ r2, cellOk t2 r c2i = true) →
    rowDiffs t1 t2 c1i c2i r1 r2 = Except.ok (rowDiffsD t1 t2 c1i c2i r1 r2) := by
  intro r1
  induction r1 with
  | nil =>
    intro r2 _ _ _
    rfl
  | cons x xs ih =>
    intro r2 hlen h1 h2
    cases r2 with
    | nil => simp at hlen
    | cons y ys =>
      have hx := (cellOk_iff t1 x c1i).mp (h1 x (List.mem_cons_self _ _))
      have hy := (cellOk_iff t2 y c2i).mp (h2 y (List.mem_cons_self _ _))
      have hrec := ih ys (by simpa using hlen)
        (fun r hr => h1 r (List.mem_cons_of_mem _ hr))
        (fun r hr => h2 r (List.mem_cons_of_mem _ hr))
      simp only [rowDiffs, rowDiffsD, hx, hy, hrec]

theorem ccv_cols_ok (t1 t2 : Table) (r1 r2 : List String) (hr : r1.length = r2.length) :
    ∀ c1 c2 : List String, c1.length = c2.length →
    (∀ c ∈ c1, ∀ r ∈ r1, cellOk t1 r c = true) →
    (∀ c ∈ c2, ∀ r ∈ r2, cellOk t2 r c = true) →
    ∀ acc, ccv_cols t1 t2 (some r1) (some r2) c1 c2 acc =
      Except.ok (dictOfPairs acc (ccvPairs t1 t2 r1 r2 c1 c2)) := by
  intro c1
  induction c1 with
  | nil =>
    intro c2 hlen _ _ acc
    cases c2 with
    | nil => rfl
    | cons b bs => simp at hlen
  | cons a as ih =>
    intro c2 hlen h1 h2 acc
    cases c2 with
    | nil => simp at hlen
    | cons b bs =>
      have hd := rowDiffs_ok t1 t2 a b r1 r2 hr
        (h1 a (List.mem_cons_self _ _)) (h2 b (List.mem_cons_self _ _))
      have hrec := ih bs (by simpa using hlen)
        (fun c hc => h1 c (List.mem_cons_of_mem _ hc))
        (fun c hc => h2 c (List.mem_cons_of_mem _ hc))
        (dictInsert acc (a ++ " [vs] " ++ b) (rowDiffsD t1 t2 a b r1 r2))
      simp only [ccv_cols, hd, hrec]
      rfl

theorem ccvPairs_length (t1 t2 : Table) (r1 r2 c1 c2 : List String)
    (hlen : c1.length = c2.length) :
    (ccvPairs t1 t2 r1 r2 c1 c2).length = c1.length := by
  simp [ccvPairs, hlen]

theorem ccvPairs_get? (t1 t2 : Table) (r1 r2 c1 c2 : List String) (i : Nat)
    (hi : i < c1.length) (hlen : c1.length = c2.length) :
    (ccvPairs t1 t2 r1 r2 c1 c2).get? i =
      some (pairLabel c1 c2 i,
        rowDiffsD t1 t2 (c1.getD i "") (c2.getD i "") r1 r2) := by
  unfold ccvPairs
  rw [List.get?_zipWith', get?_eq_some_getD hi "", get?_eq_some_getD (hlen ▸ hi) ""]
  rfl

theorem compare_column_values_ok (t1 t2 : Table) (c1 c2 r1 r2 : List String)
    (hc1 : c1 ≠ []) (hclen : c1.length = c2.length)
    (hr1 : r1 ≠ []) (hrlen : r1.length = r2.length)
    (h1 : ∀ c ∈ c1, ∀ r ∈ r1, cellOk t1 r c = true)
    (h2 : ∀ c ∈ c2, ∀ r ∈ r2, cellOk t2 r c = true) :
    compare_column_values t1 t2 c1 c2 (some r1) (some r2) =
      Except.ok (dictOfPairs [] (ccvPairs t1 t2 r1 r2 c1 c2)) := by
  have hg1 : can_compare (some (PyColl.plist c1)) (some (PyColl.plist c2)) = true := by
    rw [can_compare_plist, ← hclen]
    simp [List.length_pos.mpr hc1]
  have hg2 : can_compare (some (PyColl.plist r1)) (some (PyColl.plist r2)) = true := by
    rw [can_compare_plist, ← hrlen]
    simp [List.length_pos.mpr hr1]
  unfold compare_column_values
  simp only [hg1, hg2]
  simp only [Bool.true_eq_false, if_false]
  exact ccv_cols_ok t1 t2 r1 r2 hrlen c1 c2 hclen h1 h2 []

theorem sum_column_values_ok (t : Table) :
    ∀ cols : List String, (∀ c ∈ cols, (List.lookup c t.cols).isSome = true) →
    sum_column_values t cols = Except.ok (cols.map (fun c => (c, colSum t c))) := by
  intro cols
  induction cols with
  | nil => intro _; rfl
  | cons c cs ih =>
    intro h
    have hc : (List.lookup c t.cols).isSome = true := h c (List.mem_cons_self _ _)
    obtain ⟨vals, hvals⟩ := Option.isSome_iff_exists.mp hc
    have hrec := ih (fun x hx => h x (List.mem_cons_of_mem _ hx))
    have hsum : colSum t c = vals.sum := by
      unfold colSum
      rw [hvals]
      rfl
    simp only [sum_column_values, hvals, hrec, List.map_cons, hsum]

theorem sum_column_values_error_iff (t : Table) :
    ∀ cols : List String,
    (sum_column_values t cols = Except.error QAError.keyError ↔
      ∃ c ∈ cols, List.lookup c t.cols = none) := by
  intro cols
  induction cols with
  | nil =>
    constructor
    · intro h
      simp [sum_column_values] at h
    · rintro ⟨c, hc, _⟩
      simp at hc
  | cons c cs ih =>
    cases hv : List.lookup c t.cols with
    | none =>
      constructor
      · intro _
        exact ⟨c, List.mem_cons_self _ _, hv⟩
      · intro _
        simp [sum_column_values, hv]
    | some vals =>
      constructor
      · intro h
        simp only [sum_column_values, hv] at h
        cases hr : sum_column_values t cs with
        | error e =>
          rw [hr] at h
          cases h
          obtain ⟨x, hx, hlx⟩ := ih.mp hr
          exact ⟨x, List.mem_cons_of_mem _ hx, hlx⟩
        | ok rest =>
          rw [hr] at h
          cases h
      · rintro ⟨x, hx, hlx⟩
        rcases List.mem_cons.mp hx with rfl | hx2
        · rw [hv] at hlx
          cases hlx
        · have hr := ih.mpr ⟨x, hx2, hlx⟩
          simp [sum_column_values, hv, hr]

theorem sum_column_values_error_kind (t : Table) :
    ∀ cols : List String, ∀ e : QAError,
    sum_column_values t cols = Except.error e → e = QAError.keyError := by
  intro cols
  induction cols with
  | nil =>
    intro e h
    simp [sum_column_values] at h
  | cons c cs ih =>
    intro e h
    simp only [sum_column_values] at h
    cases hv : List.lookup c t.cols with
    | none =>
      rw [hv] at h
      cases h
      rfl
    | some vals =>
      rw [hv] at h
      cases hr : sum_column_values t cs with
      | error e2 =>
        rw [hr] at h
        injection h with he
        exact he.symm.trans (ih e2 hr)
      | ok rest =>
        rw [hr] at h
        cases h

theorem ccv_cols_empty_rows (t1 t2 : Table) :
    ∀ c1 c2 : List String, c1.length = c2.length →
    ∀ acc, ∃ d : PyDict, ccv_cols t1 t2 (some []) none c1 c2 acc = Except.ok d := by
  intro c1
  induction c1 with
  | nil =>
    intro c2 hlen acc
    cases c2 with
    | nil => exact ⟨acc, rfl⟩
    | cons b bs => simp at hlen
  | cons a as ih =>
    intro c2 hlen acc
    cases c2 with
    | nil => simp at hlen
    | cons b bs =>
      obtain ⟨d, hd⟩ := ih bs (by simpa using hlen)
        (dictInsert acc (a ++ " [vs] " ++ b) [])
      exact ⟨d, by simpa [ccv_cols] using hd⟩

theorem count_true_map_le_length (l : List Geom) (f : Geom → Bool) :
    (l.map f).count true ≤ l.length := by
  calc (l.map f).count true ≤ (l.map f).length := List.count_le_length _ _
  _ = l.length := List.length_map _ _

/-- Claim C2: with aligned non-empty column lists whose names all exist,
`compare_column_sums` succeeds and its entry at each position `i` is the
label `"{columns1[i]} [vs] {columns2[i]}"` paired with the difference of
the two positional sums as computed by `sum_column_values`. -/
theorem claim_C2 (t1 t2 : Table) (c1 c2 : List String)
    (hc1 : c1 ≠ []) (hclen : c1.length = c2.length)
    (h1 : ∀ c ∈ c1, (List.lookup c t1.cols).isSome = true)
    (h2 : ∀ c ∈ c2, (List.lookup c t2.cols).isSome = true) :
    sum_column_values t1 c1 = Except.ok (c1.map (fun c => (c, colSum t1 c)))
    ∧ sum_column_values t2 c2 = Except.ok (c2.map (fun c => (c, colSum t2 c)))
    ∧ compare_column_sums t1 t2 c1 c2 =
      Except.ok (List.zipWith
        (fun tup1 tup2 => (tup1.1 ++ " [vs] " ++ tup2.1, tup1.2 - tup2.2))
        (c1.map (fun c => (c, colSum t1 c)))
        (c2.map (fun c => (c, colSum t2 c))))
    ∧ ∀ i, i < c1.length →
      (List.zipWith
        (fun tup1 tup2 => (tup1.1 ++ " [vs] " ++ tup2.1, tup1.2 - tup2.2))
        (c1.map (fun c => (c, colSum t1 c)))
        (c2.map (fun c => (c, colSum t2 c)))).getD i ("", 0) =
      (c1.getD i "" ++ " [vs] " ++ c2.getD i "",
        ((c1.map (fun c => (c, colSum t1 c))).getD i ("", 0)).2 -
        ((c2.map (fun c => (c, colSum t2 c))).getD i ("", 0)).2) := by
  have hs1 := sum_column_values_ok t1 c1 h1
  have hs2 := sum_column_values_ok t2 c2 h2
  have hg1 : can_compare (some (PyColl.plist c1)) (some (PyColl.plist c2)) = true := by
    rw [can_compare_plist, ← hclen]
    simp [List.length_pos.mpr hc1]
  refine ⟨hs1, hs2, ?_, ?_⟩
  · unfold compare_column_sums
    simp only [hg1, Bool.true_eq_false, if_false, hs1, hs2]
  · intro i hi
    have hi2 : i < c2.length := hclen ▸ hi
    have hm1 : (c1.map (fun c => (c, colSum t1 c))).get? i =
        some (c1.getD i "", colSum t1 (c1.getD i "")) := by
      rw [List.get?_map, get?_eq_some_getD hi ""]
      rfl
    have hm2 : (c2.map (fun c => (c, colSum t2 c))).get? i =
        some (c2.getD i "", colSum t2 (c2.getD i "")) := by
      rw [List.get?_map, get?_eq_some_getD hi2 ""]
      rfl
    simp only [List.getD_eq_getD_get?, List.get?_zipWith', hm1, hm2,
      Option.map_some', Option.some_bind, Option.getD_some]

/-- Witness for claim C2 on the docstring's scenario (`COL1` against
`col1` and `COL3` against `col2`). -/
theorem claim_C2_witness :
    compare_column_sums tableOne tableTwo ["COL1", "COL3"] ["col1", "col2"] =
      Except.ok [("COL1 [vs] col1", 2), ("COL3 [vs] col2", 0)] := by
  have h := (claim_C2 tableOne tableTwo ["COL1", "COL3"] ["col1", "col2"]
    (by decide) (by decide) (by decide) (by decide)).2.2.1
  rw [h]
  rfl

/-- Claim C3: `__can_compare(xs, ys)` is true exactly when both arguments
are non-null, of the same concrete container kind (set vs set or list vs
list, never set vs list), both non-empty, and of equal length; in
particular `__can_compare({1,2}, [1,2])` is false even though the
elements coincide. -/
theorem claim_C3 :
    (∀ oxs oys : Option (PyColl Int),
      (can_compare oxs oys = true ↔
        ∃ xs ys, oxs = some xs ∧ oys = some ys ∧ xs.sameKind ys = true ∧
          0 < xs.len ∧ 0 < ys.len ∧ xs.len = ys.len))
    ∧ can_compare (some (PyColl.pset ([1, 2] : List Int)))
        (some (PyColl.plist [1, 2])) = false := by
  constructor
  · intro oxs oys
    cases oxs with
    | none => simp [can_compare]
    | some xs =>
      cases oys with
      | none => simp [can_compare]
      | some ys =>
        constructor
        · intro h
          simp only [can_compare, Bool.and_eq_true, decide_eq_true_eq,
            beq_iff_eq] at h
          exact ⟨xs, ys, rfl, rfl, h.1.1, h.1.2, h.2 ▸ h.1.2, h.2⟩
        · rintro ⟨xs', ys', hx, hy, hk, hp, hq, he⟩
          cases hx
          cases hy
          simp [can_compare, hk, hp, hq, he]
  · rfl

/-- Witness for claim C3 at the concrete input of the spec's scenario. -/
theorem claim_C3_witness :
    can_compare (some (PyColl.pset ([1, 2] : List Int)))
      (some (PyColl.plist [1, 2])) = false :=
  claim_C3.2

/-- Claim C4: for a geo-table with a geometry column and a threshold in
the unit interval, `has_missing_geometries` (resp. `has_empty_geometries`)
is true iff the count of rows with null (resp. empty) geometry strictly
exceeds threshold times the row count; at threshold `0` this means "some
such row exists", and at threshold `1` the answer is always `false`. -/
theorem claim_C4 (g : GeoTable) (t : ℚ) (h0 : 0 ≤ t) (h1 : t ≤ 1) :
    (has_missing_geometries g t = true ↔
      (((g.geometry.map Geom.isna).count true : Nat) : ℚ) >
        (g.geometry.length : ℚ) * t)
    ∧ (has_empty_geometries g t = true ↔
      (((g.geometry.map Geom.isEmptyGeom).count true : Nat) : ℚ) >
        (g.geometry.length : ℚ) * t)
    ∧ (has_missing_geometries g 0 = true ↔ ∃ x ∈ g.geometry, x.isna = true)
    ∧ (has_empty_geometries g 0 = true ↔ ∃ x ∈ g.geometry, x.isEmptyGeom = true)
    ∧ has_missing_geometries g 1 = false
    ∧ has_empty_geometries g 1 = false := by
  have hcount : ∀ f : Geom → Bool,
      (decide ((((g.geometry.map f).count true : Nat) : ℚ) >
        (g.geometry.length : ℚ) * 0) = true ↔ ∃ x ∈ g.geometry, f x = true) := by
    intro f
    rw [decide_eq_true_iff]
    rw [mul_zero, gt_iff_lt, Nat.cast_pos, List.count_pos_iff]
    constructor
    · intro hm
      rcases List.mem_map.mp hm with ⟨x, hx, hfx⟩
      exact ⟨x, hx, hfx⟩
    · rintro ⟨x, hx, hfx⟩
      exact List.mem_map.mpr ⟨x, hx, hfx⟩
  have hone : ∀ f : Geom → Bool,
      decide ((((g.geometry.map f).count true : Nat) : ℚ) >
        (g.geometry.length : ℚ) * 1) = false := by
    intro f
    rw [decide_eq_false_iff_not, mul_one, gt_iff_lt, not_lt, Nat.cast_le]
    exact count_true_map_le_length g.geometry f
  refine ⟨?_, ?_, ?_, ?_, ?_, ?_⟩
  · rw [has_missing_geometries, decide_eq_true_iff]
  · rw [has_empty_geometries, decide_eq_true_iff]
  · rw [has_missing_geometries]
    exact hcount Geom.isna
  · rw [has_empty_geometries]
    exact hcount Geom.isEmptyGeom
  · rw [has_missing_geometries]
    exact hone Geom.isna
  · rw [has_empty_geometries]
    exact hone Geom.isEmptyGeom

/-- Witness for claim C4 on the spec's concrete geometry column
`[null, POINT(1,2), POINT(2,1)]` at threshold `3/4`. -/
theorem claim_C4_witness :
    has_missing_geometries ⟨[Geom.null, Geom.point 1 2, Geom.point 2 1]⟩ 1 = false ∧
    (has_missing_geometries ⟨[Geom.null, Geom.point 1 2, Geom.point 2 1]⟩ 0 = true ↔
      ∃ x ∈ [Geom.null, Geom.point 1 2, Geom.point 2 1], x.isna = true) :=
  ⟨(claim_C4 ⟨[Geom.null, Geom.point 1 2, Geom.point 2 1]⟩ (3/4)
      (by norm_num) (by norm_num)).2.2.2.2.1,
   (claim_C4 ⟨[Geom.null, Geom.point 1 2, Geom.point 2 1]⟩ (3/4)
      (by norm_num) (by norm_num)).2.2.1⟩

/-- Claim C5: `compare_column_names` returns exactly
`(standards ∩ columns, columns − (standards ∩ columns))`: the two parts
partition the table's column set, membership in the matches is
case-sensitive exact string equality on both sides, and empty inputs
yield empty sets. -/
theorem claim_C5 (t : Table) (standards : List String) :
    (compare_column_names t standards).1 =
      standards.toFinset ∩ t.columnNames.toFinset
    ∧ (compare_column_names t standards).2 =
      t.columnNames.toFinset \ (compare_column_names t standards).1
    ∧ (compare_column_names t standards).1 ∪ (compare_column_names t standards).2 =
      t.columnNames.toFinset
    ∧ (compare_column_names t standards).1 ∩ (compare_column_names t standards).2 = ∅
    ∧ (∀ x : String, x ∈ (compare_column_names t standards).1 ↔
        x ∈ standards ∧ x ∈ t.columnNames)
    ∧ (t.cols = [] → (compare_column_names t standards).1 = ∅ ∧
        (compare_column_names t standards).2 = ∅)
    ∧ (standards = [] → (compare_column_names t standards).1 = ∅) := by
  refine ⟨rfl, rfl, ?_, ?_, ?_, ?_, ?_⟩
  · exact Finset.union_sdiff_of_subset Finset.inter_subset_right
  · exact Finset.inter_sdiff_self _ _
  · intro x
    simp [compare_column_names]
  · intro h
    constructor <;> simp [compare_column_names, Table.columnNames, h]
  · intro h
    simp [compare_column_names, h]

/-- Witness for claim C5 on the docstring's example: standards
`[COL1, COL2, COL3]` against a table with columns `[COL1, col2, COL3]`. -/
theorem claim_C5_witness :
    (compare_column_names
        { cols := [("COL1", [1, 4]), ("col2", [2, 5]), ("COL3", [3, 6])],
          index := ["0", "1"] } ["COL1", "COL2", "COL3"]).1 ∪
      (compare_column_names
        { cols := [("COL1", [1, 4]), ("col2", [2, 5]), ("COL3", [3, 6])],
          index := ["0", "1"] } ["COL1", "COL2", "COL3"]).2 =
      ({ cols := [("COL1", [1, 4]), ("col2", [2, 5]), ("COL3", [3, 6])],
          index := ["0", "1"] } : Table).columnNames.toFinset :=
  (claim_C5 _ _).2.2.1

/-- Claim C6: when every requested column exists (numeric contents are
built into the model), `sum_column_values` returns the (name, column sum)
pairs in exactly the input order. -/
theorem claim_C6 (t : Table) (cols : List String)
    (h : ∀ c ∈ cols, (List.lookup c t.cols).isSome = true) :
    sum_column_values t cols =
      Except.ok (cols.map (fun c => (c, colSum t c))) :=
  sum_column_values_ok t cols h

/-- Witness for claim C6 on the docstring's example (`COL1 ↦ 5`,
`COL3 ↦ 9`). -/
theorem claim_C6_witness :
    sum_column_values tableOne ["COL1", "COL3"] =
      Except.ok [("COL1", 5), ("COL3", 9)] := by
  have h := claim_C6 tableOne ["COL1", "COL3"] (by decide)
  rw [h]
  rfl

/-- Claim C7: `sum_column_values` fails exactly when some requested column
is absent from the table, the error is always the `KeyError` kind, and a
failing call returns no partial list (the result is the error alone). -/
theorem claim_C7 (t : Table) (cols : List String) :
    ((∃ e, sum_column_values t cols = Except.error e) ↔
      ∃ c ∈ cols, List.lookup c t.cols = none)
    ∧ (∀ e, sum_column_values t cols = Except.error e → e = QAError.keyError) := by
  constructor
  · constructor
    · rintro ⟨e, he⟩
      have hk := sum_column_values_error_kind t cols e he
      subst hk
      exact (sum_column_values_error_iff t cols).mp he
    · intro hex
      exact ⟨QAError.keyError, (sum_column_values_error_iff t cols).mpr hex⟩
  · exact sum_column_values_error_kind t cols

/-- Witness for claim C7: requesting the absent column `col2` of the
first concrete table fails. -/
theorem claim_C7_witness :
    ∃ e, sum_column_values tableOne ["COL1", "col2"] = Except.error e :=
  (claim_C7 tableOne ["COL1", "col2"]).1.mpr ⟨"col2", by decide, by decide⟩

/-- Claim C8 counterexample: with aligned columns, `rows1 = []` supplied
and `rows2` omitted, `compare_column_values` returns a result (a mapping
with an empty difference list) instead of failing with the
InvalidArgument-kind `ValueError`. -/
theorem claim_C8_counterexample :
    compare_column_values tableOne tableTwo ["COL1"] ["col1"] (some []) none =
      Except.ok [("COL1 [vs] col1", [])]
    ∧ compare_column_values tableOne tableTwo ["COL1"] ["col1"] (some []) none ≠
      Except.error QAError.valueError := by
  constructor
  · rfl
  · intro h
    rw [show compare_column_values tableOne tableTwo ["COL1"] ["col1"]
        (some []) none = Except.ok [("COL1 [vs] col1", [])] from rfl] at h
    exact Except.noConfusion h

/-- Claim C8 amended: with aligned columns and exactly one row list
supplied, `compare_column_values` never raises the InvalidArgument-kind
error: it raises the `TypeError` kind (from `len(None)` or `None[j]`)
whenever `rows1` is the omitted one or the supplied `rows1` is non-empty,
and with `rows1 = []` supplied and `rows2` omitted it returns a mapping. -/
theorem claim_C8_amended (t1 t2 : Table) (c1 c2 : List String)
    (hc1 : c1 ≠ []) (hclen : c1.length = c2.length) :
    (∀ r1 : List String, r1 ≠ [] →
      compare_column_values t1 t2 c1 c2 (some r1) none =
        Except.error QAError.typeError)
    ∧ (∀ r2 : List String,
      compare_column_values t1 t2 c1 c2 none (some r2) =
        Except.error QAError.typeError)
    ∧ (∃ d : PyDict,
      compare_column_values t1 t2 c1 c2 (some []) none = Except.ok d) := by
  have hg1 : can_compare (some (PyColl.plist c1)) (some (PyColl.plist c2)) = true := by
    rw [can_compare_plist, ← hclen]
    simp [List.length_pos.mpr hc1]
  obtain ⟨a, as, rfl⟩ := List.exists_cons_of_ne_nil hc1
  obtain ⟨b, bs, rfl⟩ : ∃ b bs, c2 = b :: bs := by
    cases c2 with
    | nil => simp at hclen
    | cons b bs => exact ⟨b, bs, rfl⟩
  refine ⟨?_, ?_, ?_⟩
  · intro r1 hr1
    obtain ⟨x, xs, rfl⟩ := List.exists_cons_of_ne_nil hr1
    unfold compare_column_values
    simp only [hg1, Bool.true_eq_false, if_false]
    rfl
  · intro r2
    unfold compare_column_values
    simp only [hg1, Bool.true_eq_false, if_false]
    rfl
  · obtain ⟨d, hd⟩ := ccv_cols_empty_rows t1 t2 (a :: as) (b :: bs) hclen []
    refine ⟨d, ?_⟩
    unfold compare_column_values
    simp only [hg1, Bool.true_eq_false, if_false]
    exact hd

/-- Witness for claim C8 (amended) at a concrete non-empty `rows1` with
`rows2` omitted. -/
theorem claim_C8_witness :
    compare_column_values tableOne tableTwo ["COL1"] ["col1"] (some ["0"]) none =
      Except.error QAError.typeError :=
  (claim_C8_amended tableOne tableTwo ["COL1"] ["col1"] (by decide)
    (by decide)).1 ["0"] (by decide)

theorem ccvPairs_mem (t1 t2 : Table) (r1 r2 c1 c2 : List String)
    (hlen : c1.length = c2.length) (p : String × List (String × Int))
    (hp : p ∈ ccvPairs t1 t2 r1 r2 c1 c2) :
    ∃ m, m < c1.length ∧
      p = (pairLabel c1 c2 m,
        rowDiffsD t1 t2 (c1.getD m "") (c2.getD m "") r1 r2) := by
  obtain ⟨m, hm⟩ := List.mem_iff_get?.mp hp
  have hmlt : m < (ccvPairs t1 t2 r1 r2 c1 c2).length := by
    by_contra hle
    rw [List.get?_eq_none.mpr (Nat.le_of_not_lt hle)] at hm
    cases hm
  rw [ccvPairs_length t1 t2 r1 r2 c1 c2 hlen] at hmlt
  rw [ccvPairs_get? t1 t2 r1 r2 c1 c2 m hmlt hlen] at hm
  injection hm with hmm
  exact ⟨m, hmlt, hmm.symm⟩

/-- Claim C1 counterexample: two distinct column-name pairs can produce
the same composite label (`"a [vs] b"` with `"c"`, and `"a"` with
`"b [vs] c"`); the dict then keeps a single entry holding the later
pair's difference list, so the entry at the first index's key is not that
index's difference list. -/
theorem claim_C1_counterexample :
    compare_column_values tableCollideOne tableCollideTwo
        ["a [vs] b", "a"] ["c", "b [vs] c"] none none =
      Except.ok [("a [vs] b [vs] c", [("0 [vs] 0", 18)])]
    ∧ rowDiffsD tableCollideOne tableCollideTwo "a [vs] b" "c" ["0"] ["0"] =
      [("0 [vs] 0", 9)]
    ∧ List.lookup "a [vs] b [vs] c"
        [("a [vs] b [vs] c", [("0 [vs] 0", (18 : Int))])] ≠
      some [("0 [vs] 0", (9 : Int))] := by
  refine ⟨rfl, rfl, ?_⟩
  intro h
  rw [show List.lookup "a [vs] b [vs] c"
      [("a [vs] b [vs] c", [("0 [vs] 0", (18 : Int))])] =
      some [("0 [vs] 0", (18 : Int))] from rfl] at h
  simp at h

/-- Claim C1 amended: with aligned non-empty columns and rows and all
referenced cells present, `compare_column_values` succeeds; omitted row
lists default to the two full indexes; and the entry under the label of
index `i` is `i`'s difference list provided every position sharing that
label carries the same column-name pair (when two different pairs collide
on one label, the later position's list overwrites the earlier one — see
the counterexample).  The spec's concrete scenario holds as stated. -/
theorem claim_C1_amended (t1 t2 : Table) (c1 c2 r1 r2 : List String)
    (hc1 : c1 ≠ []) (hclen : c1.length = c2.length)
    (hr1 : r1 ≠ []) (hrlen : r1.length = r2.length)
    (h1 : ∀ c ∈ c1, ∀ r ∈ r1, cellOk t1 r c = true)
    (h2 : ∀ c ∈ c2, ∀ r ∈ r2, cellOk t2 r c = true) :
    (compare_column_values t1 t2 c1 c2 none none =
      compare_column_values t1 t2 c1 c2 (some t1.index) (some t2.index))
    ∧ (∃ d : PyDict,
        compare_column_values t1 t2 c1 c2 (some r1) (some r2) = Except.ok d ∧
        ∀ i, i < c1.length →
          (∀ m, m < c1.length → pairLabel c1 c2 m = pairLabel c1 c2 i →
            c1.getD m "" = c1.getD i "" ∧ c2.getD m "" = c2.getD i "") →
          List.lookup (pairLabel c1 c2 i) d =
            some (rowDiffsD t1 t2 (c1.getD i "") (c2.getD i "") r1 r2))
    ∧ compare_column_values tableOne tableTwo ["COL1"] ["col1"] none none =
      Except.ok [("COL1 [vs] col1", [("0 [vs] 0", 0), ("1 [vs] 1", 2)])] := by
  refine ⟨rfl, ?_, rfl⟩
  have hmain := compare_column_values_ok t1 t2 c1 c2 r1 r2 hc1 hclen hr1 hrlen h1 h2
  refine ⟨dictOfPairs [] (ccvPairs t1 t2 r1 r2 c1 c2), hmain, ?_⟩
  intro i hi hcoll
  apply lookup_dictOfPairs_of_const
  · have hg := ccvPairs_get? t1 t2 r1 r2 c1 c2 i hi hclen
    exact List.mem_map.mpr ⟨_, List.get?_mem hg, rfl⟩
  · intro p hp hfst
    obtain ⟨m, hmlt, rfl⟩ := ccvPairs_mem t1 t2 r1 r2 c1 c2 hclen p hp
    obtain ⟨e1, e2⟩ := hcoll m hmlt hfst
    simp only [e1, e2]

/-- Witness for claim C1 (amended) at the spec's concrete scenario. -/
theorem claim_C1_witness :
    compare_column_values tableOne tableTwo ["COL1"] ["col1"] none none =
      Except.ok [("COL1 [vs] col1", [("0 [vs] 0", 0), ("1 [vs] 1", 2)])] :=
  (claim_C1_amended tableOne tableTwo ["COL1"] ["col1"] ["0", "1"] ["0", "1"]
    (by decide) (by decide) (by decide) (by decide) (by decide) (by decide)).2.2

/-- Claim C9: when the same column-name pair occurs at positions
`i < k` and no position after `k` produces the same label, the result
dict holds exactly one entry under the shared label, whose value is the
difference list of the later position `k`; with duplicated pairs the dict
therefore has fewer keys than `len(columns1)`, as the concrete doubled
scenario shows. -/
theorem claim_C9 (t1 t2 : Table) (c1 c2 r1 r2 : List String)
    (hc1 : c1 ≠ []) (hclen : c1.length = c2.length)
    (hr1 : r1 ≠ []) (hrlen : r1.length = r2.length)
    (h1 : ∀ c ∈ c1, ∀ r ∈ r1, cellOk t1 r c = true)
    (h2 : ∀ c ∈ c2, ∀ r ∈ r2, cellOk t2 r c = true)
    (i k : Nat) (hik : i < k) (hk : k < c1.length)
    (hp1 : c1.getD i "" = c1.getD k "") (hp2 : c2.getD i "" = c2.getD k "")
    (hlast : ∀ m, k < m → m < c1.length →
      pairLabel c1 c2 m ≠ pairLabel c1 c2 i) :
    (∃ d : PyDict,
      compare_column_values t1 t2 c1 c2 (some r1) (some r2) = Except.ok d ∧
      List.lookup (pairLabel c1 c2 i) d =
        some (rowDiffsD t1 t2 (c1.getD k "") (c2.getD k "") r1 r2) ∧
      (d.map Prod.fst).count (pairLabel c1 c2 i) = 1)
    ∧ compare_column_values tableOne tableTwo ["COL1", "COL1"] ["col1", "col1"]
        none none =
      Except.ok [("COL1 [vs] col1", [("0 [vs] 0", 0), ("1 [vs] 1", 2)])]
    ∧ ([("COL1 [vs] col1", [("0 [vs] 0", (0 : Int)), ("1 [vs] 1", 2)])] :
        PyDict).length < (["COL1", "COL1"] : List String).length := by
  refine ⟨?_, rfl, by decide⟩
  have hmain := compare_column_values_ok t1 t2 c1 c2 r1 r2 hc1 hclen hr1 hrlen h1 h2
  have hlabel : pairLabel c1 c2 k = pairLabel c1 c2 i := by
    unfold pairLabel
    rw [hp1, hp2]
  have hg := ccvPairs_get? t1 t2 r1 r2 c1 c2 k hk hclen
  rw [hlabel] at hg
  have hlook : List.lookup (pairLabel c1 c2 i)
      (dictOfPairs [] (ccvPairs t1 t2 r1 r2 c1 c2)) =
      some (rowDiffsD t1 t2 (c1.getD k "") (c2.getD k "") r1 r2) := by
    apply lookup_dictOfPairs_last _ k _ _ hg
    intro m p hlt hm
    have hmlt : m < c1.length := by
      by_contra hle
      rw [List.get?_eq_none.mpr (by
        rw [ccvPairs_length t1 t2 r1 r2 c1 c2 hclen]
        exact Nat.le_of_not_lt hle)] at hm
      cases hm
    obtain ⟨m', hm'lt, hmeq⟩ := ccvPairs_mem t1 t2 r1 r2 c1 c2 hclen p
      (List.get?_mem hm)
    rw [ccvPairs_get? t1 t2 r1 r2 c1 c2 m hmlt hclen] at hm
    injection hm with hmm
    rw [← hmm]
    exact hlast m hlt hmlt
  refine ⟨dictOfPairs [] (ccvPairs t1 t2 r1 r2 c1 c2), hmain, hlook, ?_⟩
  exact List.count_eq_one_of_mem
    (nodup_fst_dictOfPairs (ccvPairs t1 t2 r1 r2 c1 c2) [] (by simp))
    (lookup_some_mem_fst _ _ _ hlook)

/-- Witness for claim C9 at the doubled concrete scenario. -/
theorem claim_C9_witness :
    compare_column_values tableOne tableTwo ["COL1", "COL1"] ["col1", "col1"]
        none none =
      Except.ok [("COL1 [vs] col1", [("0 [vs] 0", 0), ("1 [vs] 1", 2)])]
    ∧ ([("COL1 [vs] col1", [("0 [vs] 0", (0 : Int)), ("1 [vs] 1", 2)])] :
        PyDict).length < (["COL1", "COL1"] : List String).length :=
  (claim_C9 tableOne tableTwo ["COL1", "COL1"] ["col1", "col1"]
    ["0", "1"] ["0", "1"] (by decide) (by decide) (by decide) (by decide)
    (by decide) (by decide) 0 1 (by decide) (by decide) (by decide) (by decide)
    (by intro m hm1 hm2; simp only [List.length_cons, List.length_nil] at hm2; omega)).2

/-- Claim C10: on a geo-table with a geometry column and zero rows, both
geometry checks answer `false` for every non-negative threshold. -/
theorem claim_C10 (g : GeoTable) (t : ℚ) (h0 : 0 ≤ t) (hg : g.geometry = []) :
    has_missing_geometries g t = false ∧ has_empty_geometries g t = false := by
  constructor
  · unfold has_missing_geometries
    rw [hg]
    norm_num
  · unfold has_empty_geometries
    rw [hg]
    norm_num

/-- Witness for claim C10 on the empty geo-table at threshold `0`. -/
theorem claim_C10_witness :
    has_missing_geometries ⟨[]⟩ 0 = false ∧ has_empty_geometries ⟨[]⟩ 0 = false :=
  claim_C10 ⟨[]⟩ 0 (le_refl 0) rfl

end Dataqa
